import Mathlib

/-!
Verification development for the module base of a status-bar segment system
(`src/include/modules/meta/base.inl`): the template renderer (`get_output`),
the output cache (`contents` / `broadcast`), the lifecycle stop path
(`stop`), and the action router (`action_router`).

The renderer is embedded as a fuel-based structural recursion over the
format value (a `List Char`); each builder call is additionally recorded in
an event trace so that properties about *which* builder operations happen
(spacer insertion, trailing-space removal, tag invocation) are observable.
The builder and `string_util` collaborators are not part of the source
snippet; their operations are modelled from the specification (see the
doc comments on `ltrim`, `bSpacePad`, `bRemoveTrailing`, `resetMarker`).
-/

/-- One observable builder interaction during a render pass.
`node`/`append` record literal output, `tagEv spaced tag result removed`
records one tag span: whether a spacer was inserted before invoking it,
the tag text, the build result (`some output` on success, `none` on
failure), and whether `remove_trailing_space` was called afterwards. -/
inductive BEvent where
  | node (s : List Char)
  | append (s : List Char)
  | tagEv (spaced : Bool) (tag : List Char) (result : Option (List Char)) (removed : Bool)
  deriving DecidableEq

/-- The renderer's mutable state inside `get_output`: the builder's
accumulated output plus the two flags `no_tag_built` and
`fake_no_tag_built` of the source loop. -/
structure RSt where
  out : List Char
  no_tag_built : Bool
  fake_no_tag_built : Bool
  deriving DecidableEq

/-- Modelled from the spec: `string_util::ltrim(s, ' ')` is not part of the
snippet; per the spec it strips leading space characters. -/
def ltrim (s : List Char) : List Char := s.dropWhile (fun c => c = ' ')

/-- Length of the run of trailing space characters of a builder output. -/
def trailRun (s : List Char) : Nat := (s.reverse.takeWhile (fun c => c = ' ')).length

/-- The builder output with its trailing run of spaces removed. -/
def trimTrail (s : List Char) : List Char := (s.reverse.dropWhile (fun c => c = ' ')).reverse

/-- Modelled from the spec: the builder's `space(n)` ("insert a spacer of
at least the Format's configured spacing") pads the trailing space run of
the output up to at least `n` spaces. -/
def bSpacePad (out : List Char) (n : Nat) : List Char :=
  out ++ List.replicate (n - trailRun out) ' '

/-- Modelled from the spec: the builder's `remove_trailing_space(m)`
("remove any trailing spacer just inserted, down to the configured
minimum gap") clamps the trailing space run of the output to at most `m`
spaces. -/
def bRemoveTrailing (out : List Char) (m : Nat) : List Char :=
  out.take (out.length - (trailRun out - m))

/-- The literal-text step of the render loop (the `start > 0` block of
`get_output`): while `no_tag_built` is set the literal is left-trimmed and
dropped if empty (and on emission the source assigns
`fake_no_tag_built = false`); otherwise it is emitted verbatim. -/
def stepLiteral (st : RSt) (lit : List Char) : RSt × List BEvent :=
  if st.no_tag_built then
    let trimmed := ltrim lit
    if trimmed = [] then (st, [])
    else ({ st with fake_no_tag_built := false, out := st.out ++ trimmed }, [BEvent.node trimmed])
  else ({ st with out := st.out ++ lit }, [BEvent.node lit])

/-- The tag step of the render loop: insert a spacer if a tag has already
been built (else, if `fake_no_tag_built`, clear `no_tag_built`); invoke the
implementation's `build`; on failure with a prior build, remove the
trailing spacer down to `max 1 spacing`; on success clear `no_tag_built`.
`impl tag = some o` models a successful build materializing `o` into the
builder, `none` a failed build. -/
def processTag (impl : List Char → Option (List Char)) (spacing : Nat) (st : RSt)
    (tag : List Char) : RSt × List BEvent :=
  let spaced := !st.no_tag_built
  let st1 :=
    if st.no_tag_built = false then { st with out := bSpacePad st.out spacing }
    else if st.fake_no_tag_built then { st with no_tag_built := false }
    else st
  match impl tag with
  | some o =>
      ({ st1 with out := st1.out ++ o, no_tag_built := false },
       [BEvent.tagEv spaced tag (some o) false])
  | none =>
      if st1.no_tag_built = false then
        ({ st1 with out := bRemoveTrailing st1.out (max 1 spacing) },
         [BEvent.tagEv spaced tag none true])
      else (st1, [BEvent.tagEv spaced tag none false])

/-- One iteration of the scan loop of `get_output`, parameterized over the
continuation `recur` for the remaining value.  Find the first `<`; if none,
or if no `>` follows it, append the whole remainder verbatim and stop.
Otherwise emit the literal before the `<` (when non-empty), process the
tag span from the `<` to the next `>`, and continue after it.  In the
source the tag is additionally checked to be nonempty (unreachable: it
always starts at a found `<`) and to start with `<` and end with `>`
(always true for the span from a found `<` to a found `>`). -/
def renderStep (impl : List Char → Option (List Char)) (spacing : Nat)
    (recur : RSt → List Char → RSt × List BEvent) (st : RSt) (value : List Char) :
    RSt × List BEvent :=
  let lit := value.takeWhile (fun c => c ≠ '<')
  match value.dropWhile (fun c => c ≠ '<') with
  | [] =>
      if value = [] then (st, [])
      else ({ st with out := st.out ++ value }, [BEvent.append value])
  | c1 :: tl =>
    match tl.dropWhile (fun c => c ≠ '>') with
    | [] =>
        if value = [] then (st, [])
        else ({ st with out := st.out ++ value }, [BEvent.append value])
    | c2 :: rest =>
      let p1 := if 0 < lit.length then stepLiteral st lit else (st, [])
      let tag := c1 :: (tl.takeWhile (fun c => c ≠ '>') ++ [c2])
      let p2 := if c1 = '<' ∧ c2 = '>' then processTag impl spacing p1.1 tag else (p1.1, [])
      let p3 := recur p2.1 rest
      (p3.1, p1.2 ++ p2.2 ++ p3.2)

/-- The scan loop of `get_output`, with explicit fuel (one unit per
iteration; `render` supplies `value.length`, which always suffices since
every iteration consumes at least two characters). -/
def renderFuel (impl : List Char → Option (List Char)) (spacing : Nat) :
    Nat → RSt → List Char → RSt × List BEvent
  | 0, st, _ => (st, [])
  | Nat.succ f, st, value => renderStep impl spacing (renderFuel impl spacing f) st value

/-- The render pass of `get_output` starting from renderer state `st`. -/
def render (impl : List Char → Option (List Char)) (spacing : Nat) (st : RSt)
    (value : List Char) : RSt × List BEvent :=
  renderFuel impl spacing value.length st value

/-- Initial renderer state: empty builder, `no_tag_built = true`,
`fake_no_tag_built = false`. -/
def rInit : RSt := { out := [], no_tag_built := true, fake_no_tag_built := false }

/-- The pre-decoration content assembled by `get_output` for a format with
the given value and spacing. -/
def getOutputContent (impl : List Char → Option (List Char)) (spacing : Nat)
    (value : List Char) : List Char :=
  (render impl spacing rInit value).1.out

/-- The builder-event trace of a full render pass. -/
def getTrace (impl : List Char → Option (List Char)) (spacing : Nat)
    (value : List Char) : List BEvent :=
  (render impl spacing rInit value).2

/-- `true` iff the string contains a `<` with no `>` at or after it,
i.e. some `<` occurs after the last `>` (or after position 0 if there is
no `>` at all). -/
def hasUnmatchedLt (v : List Char) : Bool :=
  (v.reverse.takeWhile (fun c => c ≠ '>')).any (fun c => c = '<')

/-- Trace checker: every tag event carries `spaced = true` exactly when an
earlier tag event in the trace was a successful build.  The accumulator is
the "a tag has built before this point" flag. -/
def spacersMatch : Bool → List BEvent → Bool
  | _, [] => true
  | seen, BEvent.tagEv sp _ r _ :: t => (sp == seen) && spacersMatch (seen || r.isSome) t
  | seen, _ :: t => spacersMatch seen t

/-- Tag-building implementation for the concrete scenarios: `<a>` builds
"X" and `<b>` builds "Y"; every other tag fails. -/
def implAB : List Char → Option (List Char) := fun t =>
  if t = ['<', 'a', '>'] then some ['X']
  else if t = ['<', 'b', '>'] then some ['Y']
  else none

/-- Signals the module emits towards the external scheduler. -/
inductive Sig where
  | notifyChange
  | checkState
  deriving DecidableEq

/-- Observable side effects of the lifecycle path: acquiring the
build/update lock pair, the wakeup of sleepers, the teardown hook, and a
signal emission. -/
inductive ModEvent where
  | lockBuildUpdate
  | wakeup
  | teardown
  | emit (s : Sig)
  deriving DecidableEq

/-- The state of one module: the selected format's value and spacing, the
tag-building implementation and decoration hook (external collaborators,
kept abstract as function fields), the running flag (`m_enabled`), the
cache dirty flag (`m_changed`), the cached output (`m_cache`), the
builder's buffered content between calls, and the log of emitted
lifecycle events. -/
structure ModState where
  formatValue : List Char
  spacing : Nat
  impl : List Char → Option (List Char)
  decorate : List Char → List Char
  enabled : Bool
  changed : Bool
  cache : List Char
  builderOut : List Char
  events : List ModEvent

/-- Modelled from the spec: the "reset" control marker the builder's
`control(tags::controltag::R)` appends after a non-empty render (its
concrete text is owned by the out-of-scope builder). -/
def resetMarker : List Char := String.toList "%\x7bR\x7d"

/-- `module::get_output` at module level: one render pass over the
format's value starting from the builder's buffered content, handed to the
decoration step. -/
def module_get_output (m : ModState) : List Char :=
  m.decorate (render m.impl m.spacing
    { out := m.builderOut, no_tag_built := true, fake_no_tag_built := false } m.formatValue).1.out

/-- Result of one `contents()` call: the returned string, the module state
afterwards, and whether a render (`get_output`) was performed. -/
structure ContentsRes where
  ret : List Char
  st : ModState
  rendered : Bool

/-- `module::contents`: if the dirty flag is set, re-render, flush the
builder, append the reset marker when the output is non-empty, store the
cache and clear the flag; otherwise return the cache unchanged. -/
def contents (m : ModState) : ContentsRes :=
  if m.changed = true then
    let c0 := module_get_output m
    let c1 := if c0 = [] then c0 else c0 ++ resetMarker
    { ret := c1, st := { m with changed := false, cache := c1, builderOut := [] }, rendered := true }
  else { ret := m.cache, st := m, rendered := false }

/-- `module::broadcast`: mark the cache dirty and emit `notify_change`. -/
def broadcast (m : ModState) : ModState :=
  { m with changed := true, events := m.events ++ [ModEvent.emit Sig.notifyChange] }

/-- `module::stop`: return immediately if not running; otherwise clear the
running flag, take the build and update locks together, wake sleepers,
run the teardown hook, and emit `check_state`. -/
def stop (m : ModState) : ModState :=
  if m.enabled = false then m
  else
    { m with enabled := false,
             events := m.events ++
               [ModEvent.lockBuildUpdate, ModEvent.wakeup, ModEvent.teardown,
                ModEvent.emit Sig.checkState] }

/-- One registered action: the `with_data` discriminant and an identifier
standing for the registered member-function pointer. -/
structure Entry where
  with_data : Bool
  id : Nat
  deriving DecidableEq

/-- One callback execution: which callback ran, and for data callbacks the
payload it received. -/
inductive Call where
  | noArg (id : Nat)
  | withArg (id : Nat) (data : List Char)
  deriving DecidableEq

/-- What a successful `invoke` did: the callbacks executed and the
diagnostics emitted. -/
structure InvokeRes where
  calls : List Call
  diags : List (List Char)
  deriving DecidableEq

/-- The action table: a name-to-entry map (`std::unordered_map`), as an
association list with at most one record per name. -/
abbrev Router := List (List Char × Entry)

/-- `action_router::register_action`: store a no-data entry under the
name, overwriting any prior registration. -/
def register_action (r : Router) (name : List Char) (id : Nat) : Router :=
  (name, { with_data := false, id := id }) :: r.filter (fun p => p.1 ≠ name)

/-- `action_router::register_action_with_data`: store a with-data entry
under the name, overwriting any prior registration. -/
def register_action_with_data (r : Router) (name : List Char) (id : Nat) : Router :=
  (name, { with_data := true, id := id }) :: r.filter (fun p => p.1 ≠ name)

/-- Map lookup, `callbacks.find(name)`. -/
def lookupE (r : Router) (name : List Char) : Option Entry :=
  (r.find? (fun p => p.1 = name)).map Prod.snd

/-- `action_router::has_action`. -/
def has_action (r : Router) (name : List Char) : Bool :=
  (lookupE r name).isSome

/-- `action_router::invoke`: `none` models the `assert` firing on an
unregistered name.  On a found entry, the callback matching the stored
shape runs with the payload exactly when `with_data` is set; the
`has_data && !with_data` case is an empty block in the source ("TODO
print error message"), so no diagnostic is ever emitted. -/
def invoke (r : Router) (name data : List Char) : Option InvokeRes :=
  match lookupE r name with
  | none => none
  | some e =>
      some { calls := [if e.with_data then Call.withArg e.id data else Call.noArg e.id],
             diags := [] }

/-- `module::input`: `false` (and nothing invoked) when the name is
unknown to the table, else dispatch through `invoke` and return `true`.
The `none` branch of `invoke` is unreachable here because `has_action` is
checked first. -/
def inputR (r : Router) (name data : List Char) : Bool × List Call :=
  if has_action r name = false then (false, [])
  else
    match invoke r name data with
    | some res => (true, res.calls)
    | none => (true, [])

/-- Tag-building implementation with a single known tag `<x>` building
"X"; used by the concrete render counterexamples and witnesses. -/
def implAX : List Char → Option (List Char) := fun t =>
  if t = ['<', 'x', '>'] then some ['X'] else none

/-- A module that is already stopped, with trivial collaborators. -/
def mStopped : ModState :=
  { formatValue := [], spacing := 0, impl := fun _ => none, decorate := fun s => s,
    enabled := false, changed := false, cache := [], builderOut := [], events := [] }

/-- An action table with one registered no-data action "act". -/
def routerNoData : Router :=
  register_action [] (String.toList "act") 7

/-- Implementation that builds every tag as "Y". -/
def implY : List Char → Option (List Char) := fun _ => some ['Y']

/-- Implementation that fails to build every tag. -/
def implNone : List Char → Option (List Char) := fun _ => none

/-- C2: for the format value `"<a> text <b>"` with spacing 1, where the
implementation builds `<a>` as "X" and `<b>` as "Y", the pre-decoration
content assembled by `get_output` is exactly `"X text Y"`. -/
theorem C2_scenario_exact_content :
    getOutputContent implAB 1 (String.toList "<a> text <b>") = String.toList "X text Y" := by
  decide

/-- C5: two `contents()` calls with no intervening `broadcast()` return
identical strings, and the second call performs no render and leaves the
whole module state (cache, builder, flags, event log) untouched. -/
theorem C5_contents_idempotent (m : ModState) :
    (contents (contents m).st).ret = (contents m).ret ∧
    (contents (contents m).st).st = (contents m).st ∧
    (contents (contents m).st).rendered = false := by
  by_cases h : m.changed = true
  · simp [contents, h]
  · simp [contents, h]

/-- C6: `broadcast()` sets the dirty flag and emits exactly one
`notify_change` signal, and the next `contents()` call after it performs a
render (calls `get_output`) unconditionally. -/
theorem C6_broadcast_dirty_and_rerender (m : ModState) :
    (broadcast m).changed = true ∧
    (broadcast m).events = m.events ++ [ModEvent.emit Sig.notifyChange] ∧
    (contents (broadcast m)).rendered = true := by
  refine ⟨rfl, rfl, ?_⟩
  simp [contents, broadcast]

/-- C7: `stop()` on a module whose running flag is already false is a
no-op: the state (every field, including the event log, so no lock
acquisition, no teardown, no `check_state` emission) is unchanged. -/
theorem C7_stop_noop (m : ModState) (h : m.enabled = false) : stop m = m := by
  simp [stop, h]

/-- Witness for C7 at a concrete stopped module. -/
theorem C7_stop_noop_witness : mStopped.enabled = false ∧ stop mStopped = mStopped :=
  ⟨rfl, C7_stop_noop mStopped rfl⟩

/-- C8: evaluating `invoke` at the failing input — a registered no-data
entry called with non-empty payload.  The no-argument callback runs
exactly once and the call succeeds with the payload discarded, but the
diagnostics list is empty: the source's `has_data && !e.with_data` branch
is an empty block marked "TODO print error message", contradicting the
claimed (and intended) diagnostic emission. -/
theorem C8_invoke_payload_no_diagnostic :
    invoke routerNoData (String.toList "act") (String.toList "payload") =
      some { calls := [Call.noArg 7], diags := [] } := by
  decide

/-- C9: `input(name, data)` returns `false` and invokes nothing when the
name is not in the action table, and returns `true` after dispatching the
single registered callback (through a non-fatal `invoke`) when it is. -/
theorem C9_input_query (r : Router) (name data : List Char) :
    (has_action r name = false → inputR r name data = (false, [])) ∧
    (has_action r name = true →
      ∃ e, lookupE r name = some e ∧
        invoke r name data =
          some { calls := [if e.with_data then Call.withArg e.id data else Call.noArg e.id],
                 diags := [] } ∧
        inputR r name data =
          (true, [if e.with_data then Call.withArg e.id data else Call.noArg e.id])) := by
  constructor
  · intro h
    simp [inputR, h]
  · intro h
    rcases ho : lookupE r name with _ | e
    · simp [has_action, ho] at h
    · refine ⟨e, rfl, ?_, ?_⟩
      · simp [invoke, ho]
      · simp [inputR, h, invoke, ho]

/-- Witness for C9: both branches at concrete inputs — an unknown name
returns `false` with nothing invoked, the registered name dispatches its
no-data callback. -/
theorem C9_input_query_witness :
    inputR routerNoData (String.toList "nope") (String.toList "d") = (false, []) ∧
    (∃ e, lookupE routerNoData (String.toList "act") = some e ∧
      invoke routerNoData (String.toList "act") (String.toList "pay") =
        some { calls := [if e.with_data then Call.withArg e.id (String.toList "pay")
                         else Call.noArg e.id], diags := [] } ∧
      inputR routerNoData (String.toList "act") (String.toList "pay") =
        (true, [if e.with_data then Call.withArg e.id (String.toList "pay")
                else Call.noArg e.id])) :=
  ⟨(C9_input_query routerNoData (String.toList "nope") (String.toList "d")).1 (by decide),
   (C9_input_query routerNoData (String.toList "act") (String.toList "pay")).2 (by decide)⟩

/-- The head of a non-empty `dropWhile` result fails the predicate. -/
theorem dropWhile_head_false {α} {p : α → Bool} :
    ∀ {l : List α} {a : α} {t : List α}, l.dropWhile p = a :: t → p a = false
  | [], _, _, h => by simp at h
  | x :: xs, a, t, h => by
    by_cases hx : p x = true
    · rw [List.dropWhile_cons_of_pos hx] at h
      exact dropWhile_head_false h
    · rw [List.dropWhile_cons_of_neg hx] at h
      cases h
      simpa using hx

/-- `takeWhile` over a block of satisfying elements followed by a failing
element returns exactly the block. -/
theorem takeWhile_middle {α} (p : α → Bool) (y : α) (ys : List α) (hy : p y = false) :
    ∀ (xs : List α), (∀ x ∈ xs, p x = true) → (xs ++ y :: ys).takeWhile p = xs
  | [], _ => by simp [List.takeWhile_cons, hy]
  | x :: xs, h => by
    have hx : p x = true := h x (by simp)
    simp [List.takeWhile_cons, hx,
      takeWhile_middle p y ys hy xs (fun a ha => h a (by simp [ha]))]

/-- `dropWhile` over a block of satisfying elements followed by a failing
element returns the failing element and everything after it. -/
theorem dropWhile_middle {α} (p : α → Bool) (y : α) (ys : List α) (hy : p y = false) :
    ∀ (xs : List α), (∀ x ∈ xs, p x = true) → (xs ++ y :: ys).dropWhile p = y :: ys
  | [], _ => by
    rw [List.nil_append, List.dropWhile_cons_of_neg (by simp [hy])]
  | x :: xs, h => by
    have hx : p x = true := h x (by simp)
    rw [List.cons_append, List.dropWhile_cons_of_pos hx]
    exact dropWhile_middle p y ys hy xs (fun a ha => h a (by simp [ha]))

/-- `takeWhile` passes over a leading block of satisfying elements. -/
theorem takeWhile_append_all {α} (p : α → Bool) (ys : List α) :
    ∀ (xs : List α), (∀ x ∈ xs, p x = true) → (xs ++ ys).takeWhile p = xs ++ ys.takeWhile p
  | [], _ => by simp
  | x :: xs, h => by
    have hx : p x = true := h x (by simp)
    simp [List.takeWhile_cons, hx,
      takeWhile_append_all p ys xs (fun a ha => h a (by simp [ha]))]

/-- `dropWhile` drops a leading block of satisfying elements. -/
theorem dropWhile_append_all {α} (p : α → Bool) (ys : List α) :
    ∀ (xs : List α), (∀ x ∈ xs, p x = true) → (xs ++ ys).dropWhile p = ys.dropWhile p
  | [], _ => by simp
  | x :: xs, h => by
    have hx : p x = true := h x (by simp)
    rw [List.cons_append, List.dropWhile_cons_of_pos hx]
    exact dropWhile_append_all p ys xs (fun a ha => h a (by simp [ha]))

/-- `takeWhile` stops at a failing element regardless of what follows. -/
theorem takeWhile_append_stop {α} (p : α → Bool) (y : α) (B : List α) (hy : p y = false) :
    ∀ (A : List α), (A ++ y :: B).takeWhile p = A.takeWhile p
  | [] => by simp [List.takeWhile_cons, hy]
  | a :: A => by
    rw [List.cons_append, List.takeWhile_cons, List.takeWhile_cons,
      takeWhile_append_stop p y B hy A]

/-- Taking while `p` holds yields nothing after dropping while `p` holds. -/
theorem takeWhile_dropWhile_nil {α} (p : α → Bool) (l : List α) :
    (l.dropWhile p).takeWhile p = [] := by
  cases h : l.dropWhile p with
  | nil => simp
  | cons a t =>
    rw [List.takeWhile_cons, dropWhile_head_false h]
    simp

/-- Membership in a `takeWhile` gives membership in the list. -/
theorem mem_of_mem_takeWhile {α} {p : α → Bool} :
    ∀ {l : List α} {a : α}, a ∈ l.takeWhile p → a ∈ l
  | [], _, h => by simp at h
  | x :: xs, a, h => by
    rw [List.takeWhile_cons] at h
    by_cases hx : p x = true
    · rw [if_pos hx] at h
      rcases List.mem_cons.mp h with h | h
      · simp [h]
      · exact List.mem_cons_of_mem x (mem_of_mem_takeWhile h)
    · rw [if_neg hx] at h
      simp at h

/-- A leading run of spaces taken by `takeWhile` is a `replicate`. -/
theorem takeWhile_sp_eq_replicate (l : List Char) :
    l.takeWhile (fun c => c = ' ') =
      List.replicate (l.takeWhile (fun c => c = ' ')).length ' ' :=
  List.eq_replicate_of_mem (fun _ hb => by simpa using List.mem_takeWhile_imp hb)

/-- Every builder output is its trimmed part followed by its trailing
space run. -/
theorem trimTrail_append_trailRun (s : List Char) :
    trimTrail s ++ List.replicate (trailRun s) ' ' = s := by
  have h1 : (s.reverse.takeWhile (fun c => c = ' ')).reverse
      = List.replicate (trailRun s) ' ' := by
    conv_lhs => rw [takeWhile_sp_eq_replicate s.reverse]
    rw [List.reverse_replicate]
    rfl
  calc trimTrail s ++ List.replicate (trailRun s) ' '
      = (s.reverse.dropWhile (fun c => c = ' ')).reverse
        ++ (s.reverse.takeWhile (fun c => c = ' ')).reverse := by rw [h1]; rfl
    _ = (s.reverse.takeWhile (fun c => c = ' ')
        ++ s.reverse.dropWhile (fun c => c = ' ')).reverse := by
        rw [List.reverse_append]
    _ = s := by rw [List.takeWhile_append_dropWhile, List.reverse_reverse]

/-- The trimmed part of an output has no trailing spaces. -/
theorem trailRun_trimTrail (s : List Char) : trailRun (trimTrail s) = 0 := by
  unfold trailRun trimTrail
  rw [List.reverse_reverse, takeWhile_dropWhile_nil]
  rfl

/-- Appending spaces extends the trailing run by their number. -/
theorem trailRun_append_spaces (s : List Char) (n : Nat) :
    trailRun (s ++ List.replicate n ' ') = trailRun s + n := by
  unfold trailRun
  rw [List.reverse_append, List.reverse_replicate,
    takeWhile_append_all _ _ _
      (fun x hx => by simp [List.eq_of_mem_replicate hx])]
  simp [Nat.add_comm]

/-- Appending spaces does not change the trimmed part. -/
theorem trimTrail_append_spaces (s : List Char) (n : Nat) :
    trimTrail (s ++ List.replicate n ' ') = trimTrail s := by
  unfold trimTrail
  rw [List.reverse_append, List.reverse_replicate,
    dropWhile_append_all _ _ _
      (fun x hx => by simp [List.eq_of_mem_replicate hx])]

/-- The spacer pad: output becomes the trimmed part followed by the larger
of the existing run and the requested spacing. -/
theorem bSpacePad_decomp (out : List Char) (n : Nat) :
    bSpacePad out n = trimTrail out ++ List.replicate (max (trailRun out) n) ' ' := by
  rw [bSpacePad, show max (trailRun out) n = trailRun out + (n - trailRun out) from by omega,
    List.replicate_add, ← List.append_assoc, trimTrail_append_trailRun]

/-- Removing trailing space down to `m` on a trimmed part followed by `k`
spaces clamps the run to `min k m`. -/
theorem bRemoveTrailing_decomp (T : List Char) (hT : trailRun T = 0) (k m : Nat) :
    bRemoveTrailing (T ++ List.replicate k ' ') m = T ++ List.replicate (min k m) ' ' := by
  unfold bRemoveTrailing
  rw [trailRun_append_spaces, hT]
  simp only [Nat.zero_add, List.length_append, List.length_replicate]
  rw [show T.length + k - (k - m) = T.length + min k m from by omega,
    List.take_append, List.take_replicate,
    show min k m ⊓ k = min k m from by omega]

/-- Combined effect of the failure path (`space(spacing)` followed by
`remove_trailing_space(max 1 spacing)`) on the builder output. -/
theorem failStep_out (out : List Char) (s : Nat) :
    bRemoveTrailing (bSpacePad out s) (max 1 s) =
      trimTrail out ++ List.replicate (min (max (trailRun out) s) (max 1 s)) ' ' := by
  rw [bSpacePad_decomp, bRemoveTrailing_decomp _ (trailRun_trimTrail out)]

/-- Rendering the empty value is a no-op for any fuel. -/
theorem renderFuel_nil (impl : List Char → Option (List Char)) (s f : Nat) (st : RSt) :
    renderFuel impl s f st [] = (st, []) := by
  cases f with
  | zero => rfl
  | succ f => rfl

/-- `renderStep` only depends on the continuation's values at strictly
shorter remainders. -/
theorem renderStep_congr (impl : List Char → Option (List Char)) (s : Nat)
    (r1 r2 : RSt → List Char → RSt × List BEvent) (st : RSt) (value : List Char)
    (h : ∀ st2 rest, rest.length + 2 ≤ value.length → r1 st2 rest = r2 st2 rest) :
    renderStep impl s r1 st value = renderStep impl s r2 st value := by
  unfold renderStep
  rcases hd : value.dropWhile (fun c => c ≠ '<') with _ | ⟨c1, tl⟩
  · rfl
  · rcases hd2 : tl.dropWhile (fun c => c ≠ '>') with _ | ⟨c2, rest⟩
    · simp only [hd2]
    · have hv : value.takeWhile (fun c => c ≠ '<') ++ value.dropWhile (fun c => c ≠ '<')
          = value := List.takeWhile_append_dropWhile _ _
      rw [hd] at hv
      have ht : tl.takeWhile (fun c => c ≠ '>') ++ tl.dropWhile (fun c => c ≠ '>')
          = tl := List.takeWhile_append_dropWhile _ _
      rw [hd2] at ht
      have hlen : rest.length + 2 ≤ value.length := by
        have h1 := congrArg List.length hv
        have h2 := congrArg List.length ht
        simp only [List.length_append, List.length_cons] at h1 h2
        omega
      simp only [hd, hd2]
      rw [h _ rest hlen]

/-- Any two sufficient fuels render identically. -/
theorem renderFuel_congr (impl : List Char → Option (List Char)) (s : Nat) :
    ∀ (f g : Nat) (st : RSt) (v : List Char), v.length ≤ f → v.length ≤ g →
      renderFuel impl s f st v = renderFuel impl s g st v := by
  intro f
  induction f with
  | zero =>
    intro g st v hf _
    have hv : v = [] := List.length_eq_zero.mp (Nat.le_zero.mp hf)
    subst hv
    rw [renderFuel_nil, renderFuel_nil]
  | succ f ih =>
    intro g st v hf hg
    rcases v with _ | ⟨a, vt⟩
    · rw [renderFuel_nil, renderFuel_nil]
    · rcases g with _ | g
      · simp at hg
      · show renderStep impl s (renderFuel impl s f) st (a :: vt)
            = renderStep impl s (renderFuel impl s g) st (a :: vt)
        apply renderStep_congr
        intro st2 rest hlen
        simp only [List.length_cons] at hf hg hlen
        exact ih g st2 rest (by omega) (by omega)

/-- Sufficient fuel computes `render`. -/
theorem renderFuel_sufficient (impl : List Char → Option (List Char)) (s f : Nat)
    (st : RSt) (v : List Char) (h : v.length ≤ f) :
    renderFuel impl s f st v = render impl s st v :=
  renderFuel_congr impl s f v.length st v h (Nat.le_refl _)

/-- Unfolding lemma: on a non-empty value, `render` is one `renderStep`
with `render` itself as the continuation. -/
theorem render_step_eq (impl : List Char → Option (List Char)) (s : Nat) (st : RSt)
    (a : Char) (vt : List Char) :
    render impl s st (a :: vt) =
      renderStep impl s (fun st2 r2 => render impl s st2 r2) st (a :: vt) := by
  show renderStep impl s (renderFuel impl s vt.length) st (a :: vt) = _
  apply renderStep_congr
  intro st2 r2 hlen
  refine renderFuel_sufficient impl s _ st2 r2 ?_
  simp only [List.length_cons] at hlen
  omega

/-- C1 counterexample: for the format value `"a<x>"` with spacing 1 and
`<x>` building "X", the non-empty literal "a" is emitted first, yet the
tag span that follows is invoked with no spacer before it
(`spaced = false` in its trace event) and the content is `"aX"`, not
`"a X"`.  This refutes the claim that emitting the first non-empty
literal clears the no-tag-built state and causes a spacer before every
subsequent tag span: `fake_no_tag_built` starts `false` and is only ever
reassigned `false`, so literal text never clears `no_tag_built`. -/
theorem C1_counterexample :
    getTrace implAX 1 (String.toList "a<x>") =
      [BEvent.node ['a'], BEvent.tagEv false ['<', 'x', '>'] (some ['X']) false] ∧
    getOutputContent implAX 1 (String.toList "a<x>") = String.toList "aX" := by
  decide

/-- C3: when a tag has already built (`no_tag_built = false`), the prior
output does not end in spaces, and the next tag span follows immediately
(no literal text between them) and builds successfully, the renderer
inserts exactly `s` spaces between the prior output and the new tag's
output — never less and never accumulating to more. -/
theorem C3_consecutive_tags_exact_gap
    (impl : List Char → Option (List Char)) (s : Nat) (st : RSt)
    (mid o2 rest : List Char)
    (_hs : 1 ≤ s) (hnt : st.no_tag_built = false) (hrun : trailRun st.out = 0)
    (hmid : ∀ c ∈ mid, c ≠ '>') (hb : impl ('<' :: mid ++ ['>']) = some o2) :
    render impl s st (('<' :: mid ++ ['>']) ++ rest) =
      ((render impl s
          ⟨st.out ++ List.replicate s ' ' ++ o2, false, st.fake_no_tag_built⟩ rest).1,
        BEvent.tagEv true ('<' :: mid ++ ['>']) (some o2) false ::
          (render impl s
            ⟨st.out ++ List.replicate s ' ' ++ o2, false, st.fake_no_tag_built⟩ rest).2) := by
  have hv : (('<' :: mid ++ ['>']) ++ rest) = '<' :: (mid ++ '>' :: rest) := by simp
  rw [hv, render_step_eq]
  have e1 : ('<' :: (mid ++ '>' :: rest)).dropWhile (fun c => c ≠ '<')
      = '<' :: (mid ++ '>' :: rest) := List.dropWhile_cons_of_neg (by simp)
  have e2 : ('<' :: (mid ++ '>' :: rest)).takeWhile (fun c => c ≠ '<') = [] := by
    rw [List.takeWhile_cons]
    simp
  have e3 : (mid ++ '>' :: rest).dropWhile (fun c => c ≠ '>') = '>' :: rest :=
    dropWhile_middle _ _ _ (by simp) mid (fun x hx => by simpa using hmid x hx)
  have e4 : (mid ++ '>' :: rest).takeWhile (fun c => c ≠ '>') = mid :=
    takeWhile_middle _ _ _ (by simp) mid (fun x hx => by simpa using hmid x hx)
  unfold renderStep
  simp only [e1, e2, e3, e4, List.length_nil, Nat.lt_irrefl, if_false]
  simp only [processTag, hnt, bSpacePad, hrun, Nat.sub_zero]
  have hb' : impl ('<' :: (mid ++ ['>'])) = some o2 := by
    rw [← List.cons_append]
    exact hb
  simp [hb']

/-- Witness for C3 at concrete inputs: prior output "A", spacing 2, tag
`<b>` building "Y" with nothing after it — the gap is exactly two
spaces. -/
theorem C3_witness :
    (1 ≤ 2 ∧ (⟨['A'], false, false⟩ : RSt).no_tag_built = false ∧
      trailRun ['A'] = 0 ∧ (∀ c ∈ (['b'] : List Char), c ≠ '>') ∧
      implY ('<' :: ['b'] ++ ['>']) = some ['Y']) ∧
    render implY 2 ⟨['A'], false, false⟩ (('<' :: ['b'] ++ ['>']) ++ []) =
      ((render implY 2 ⟨['A'] ++ List.replicate 2 ' ' ++ ['Y'], false, false⟩ []).1,
        BEvent.tagEv true ('<' :: ['b'] ++ ['>']) (some ['Y']) false ::
          (render implY 2 ⟨['A'] ++ List.replicate 2 ' ' ++ ['Y'], false, false⟩ []).2) :=
  ⟨⟨by decide, rfl, by decide, by decide, rfl⟩,
   C3_consecutive_tags_exact_gap implY 2 ⟨['A'], false, false⟩ ['b'] ['Y'] []
     (by decide) rfl (by decide) (by decide) rfl⟩

/-- There are no trailing spaces left after trimming twice. -/
theorem trimTrail_idem (s : List Char) : trimTrail (trimTrail s) = trimTrail s := by
  have h := trailRun_trimTrail s
  have h2 := trimTrail_append_trailRun (trimTrail s)
  rw [h] at h2
  simpa using h2

/-- C4: when a tag fails to build after at least one tag has succeeded
(`no_tag_built = false`), the renderer inserts the spacer and then removes
it down to the minimum gap `max 1 spacing`: the output becomes the trimmed
prior output followed by `min (max (trailRun out) s) (max 1 s)` spaces —
for `s ≥ 1` a trailing run of exactly `max 1 s` — the non-space content is
untouched, and a further failed tag leaves the output unchanged (no
compounding padding, no collapse below the minimum). -/
theorem C4_failed_tag_min_gap
    (impl : List Char → Option (List Char)) (s : Nat) (st : RSt)
    (mid rest : List Char)
    (hnt : st.no_tag_built = false) (hmid : ∀ c ∈ mid, c ≠ '>')
    (hb : impl ('<' :: mid ++ ['>']) = none) :
    ∃ st4 : RSt,
      st4 = ⟨trimTrail st.out ++
               List.replicate (min (max (trailRun st.out) s) (max 1 s)) ' ',
             false, st.fake_no_tag_built⟩ ∧
      render impl s st (('<' :: mid ++ ['>']) ++ rest) =
        ((render impl s st4 rest).1,
          BEvent.tagEv true ('<' :: mid ++ ['>']) none true ::
            (render impl s st4 rest).2) ∧
      (1 ≤ s → trailRun st4.out = max 1 s) ∧
      trimTrail st4.out = trimTrail st.out ∧
      (1 ≤ s → bRemoveTrailing (bSpacePad st4.out s) (max 1 s) = st4.out) := by
  refine ⟨_, rfl, ?_, ?_, ?_, ?_⟩
  · have hv : (('<' :: mid ++ ['>']) ++ rest) = '<' :: (mid ++ '>' :: rest) := by simp
    rw [hv, render_step_eq]
    have e1 : ('<' :: (mid ++ '>' :: rest)).dropWhile (fun c => c ≠ '<')
        = '<' :: (mid ++ '>' :: rest) := List.dropWhile_cons_of_neg (by simp)
    have e2 : ('<' :: (mid ++ '>' :: rest)).takeWhile (fun c => c ≠ '<') = [] := by
      rw [List.takeWhile_cons]
      simp
    have e3 : (mid ++ '>' :: rest).dropWhile (fun c => c ≠ '>') = '>' :: rest :=
      dropWhile_middle _ _ _ (by simp) mid (fun x hx => by simpa using hmid x hx)
    have e4 : (mid ++ '>' :: rest).takeWhile (fun c => c ≠ '>') = mid :=
      takeWhile_middle _ _ _ (by simp) mid (fun x hx => by simpa using hmid x hx)
    unfold renderStep
    simp only [e1, e2, e3, e4, List.length_nil, Nat.lt_irrefl, if_false]
    have hb' : impl ('<' :: (mid ++ ['>'])) = none := by
      rw [← List.cons_append]
      exact hb
    simp only [processTag, hnt, hb']
    simp [failStep_out]
  · intro hs1
    rw [show (⟨trimTrail st.out ++
          List.replicate (min (max (trailRun st.out) s) (max 1 s)) ' ',
        false, st.fake_no_tag_built⟩ : RSt).out
      = trimTrail st.out ++
          List.replicate (min (max (trailRun st.out) s) (max 1 s)) ' ' from rfl,
      trailRun_append_spaces, trailRun_trimTrail]
    omega
  · rw [show (⟨trimTrail st.out ++
          List.replicate (min (max (trailRun st.out) s) (max 1 s)) ' ',
        false, st.fake_no_tag_built⟩ : RSt).out
      = trimTrail st.out ++
          List.replicate (min (max (trailRun st.out) s) (max 1 s)) ' ' from rfl,
      trimTrail_append_spaces, trimTrail_idem]
  · intro hs1
    rw [show (⟨trimTrail st.out ++
          List.replicate (min (max (trailRun st.out) s) (max 1 s)) ' ',
        false, st.fake_no_tag_built⟩ : RSt).out
      = trimTrail st.out ++
          List.replicate (min (max (trailRun st.out) s) (max 1 s)) ' ' from rfl,
      failStep_out, trailRun_append_spaces, trailRun_trimTrail,
      trimTrail_append_spaces, trimTrail_idem]
    have hc : min (max (0 + min (max (trailRun st.out) s) (max 1 s)) s) (max 1 s)
        = min (max (trailRun st.out) s) (max 1 s) := by omega
    rw [hc]

/-- Witness for C4 at concrete inputs: prior output "A " (one trailing
space), spacing 2, failing tag `<b>`. -/
theorem C4_witness :
    ((⟨['A', ' '], false, false⟩ : RSt).no_tag_built = false ∧
      (∀ c ∈ (['b'] : List Char), c ≠ '>') ∧
      implNone ('<' :: ['b'] ++ ['>']) = none) ∧
    (∃ st4 : RSt,
      st4 = ⟨trimTrail ['A', ' '] ++
               List.replicate (min (max (trailRun ['A', ' ']) 2) (max 1 2)) ' ',
             false, false⟩ ∧
      render implNone 2 ⟨['A', ' '], false, false⟩ (('<' :: ['b'] ++ ['>']) ++ []) =
        ((render implNone 2 st4 []).1,
          BEvent.tagEv true ('<' :: ['b'] ++ ['>']) none true ::
            (render implNone 2 st4 []).2) ∧
      (1 ≤ 2 → trailRun st4.out = max 1 2) ∧
      trimTrail st4.out = trimTrail ['A', ' '] ∧
      (1 ≤ 2 → bRemoveTrailing (bSpacePad st4.out 2) (max 1 2) = st4.out)) :=
  ⟨⟨rfl, by decide, rfl⟩,
   C4_failed_tag_min_gap implNone 2 ⟨['A', ' '], false, false⟩ ['b'] [] rfl (by decide) rfl⟩

/-- The literal step never changes `no_tag_built`, leaves the fake flag
false (when it was false), and its events pass through the spacer
checker unchanged. -/
theorem stepLiteral_flags (st : RSt) (lit : List Char) (hf : st.fake_no_tag_built = false) :
    (stepLiteral st lit).1.no_tag_built = st.no_tag_built ∧
    (stepLiteral st lit).1.fake_no_tag_built = false ∧
    ∀ (b : Bool) (t : List BEvent),
      spacersMatch b ((stepLiteral st lit).2 ++ t) = spacersMatch b t := by
  unfold stepLiteral
  by_cases h : st.no_tag_built = true
  · by_cases h2 : ltrim lit = [] <;> simp [h, h2, spacersMatch, hf]
  · simp [h, spacersMatch, hf]

/-- The tag step: the fake flag stays false, `no_tag_built` afterwards is
false exactly when it already was or the build succeeded, and the tag
event turns the checker's seen-flag accordingly. -/
theorem processTag_flags (impl : List Char → Option (List Char)) (s : Nat) (st : RSt)
    (tag : List Char) (hf : st.fake_no_tag_built = false) :
    (processTag impl s st tag).1.fake_no_tag_built = false ∧
    (!(processTag impl s st tag).1.no_tag_built) = (!st.no_tag_built || (impl tag).isSome) ∧
    ∀ t : List BEvent,
      spacersMatch (!st.no_tag_built) ((processTag impl s st tag).2 ++ t) =
        spacersMatch (!st.no_tag_built || (impl tag).isSome) t := by
  unfold processTag
  rcases him : impl tag with _ | o
  · by_cases h : st.no_tag_built = false <;>
      simp [h, hf, him, spacersMatch]
  · by_cases h : st.no_tag_built = false <;>
      simp [h, hf, him, spacersMatch]

/-- Invariant behind the amended C1: starting from a state whose fake flag
is false, the whole render trace satisfies the spacer checker with the
seen-flag initialized to "a tag has built already", and the fake flag
stays false. -/
theorem spacers_inv (impl : List Char → Option (List Char)) (s : Nat) :
    ∀ (f : Nat) (st : RSt) (v : List Char), st.fake_no_tag_built = false →
      spacersMatch (!st.no_tag_built) (renderFuel impl s f st v).2 = true ∧
      (renderFuel impl s f st v).1.fake_no_tag_built = false := by
  intro f
  induction f with
  | zero => intro st v hf; exact ⟨rfl, hf⟩
  | succ f ih =>
    intro st v hf
    show spacersMatch _ (renderStep impl s (renderFuel impl s f) st v).2 = true ∧
         (renderStep impl s (renderFuel impl s f) st v).1.fake_no_tag_built = false
    unfold renderStep
    rcases hd : v.dropWhile (fun c => c ≠ '<') with _ | ⟨c1, tl⟩
    · by_cases hv : v = [] <;> simp [hv, hf, spacersMatch]
    · rcases hd2 : tl.dropWhile (fun c => c ≠ '>') with _ | ⟨c2, rest⟩
      · simp only [hd2]
        by_cases hv : v = [] <;> simp [hv, hf, spacersMatch]
      · simp only [hd2]
        set lit := v.takeWhile (fun c => c ≠ '<') with hlit
        set p1 := if 0 < lit.length then stepLiteral st lit else (st, []) with hp1
        have hL : p1.1.no_tag_built = st.no_tag_built ∧
            p1.1.fake_no_tag_built = false ∧
            ∀ (b : Bool) (t : List BEvent),
              spacersMatch b (p1.2 ++ t) = spacersMatch b t := by
          rw [hp1]
          by_cases hl : 0 < lit.length
          · simpa [hl] using stepLiteral_flags st lit hf
          · simp [hl, hf]
        set tag := c1 :: (tl.takeWhile (fun c => c ≠ '>') ++ [c2]) with htag
        by_cases hc : c1 = '<' ∧ c2 = '>'
        · rw [if_pos hc]
          set p2 := processTag impl s p1.1 tag with hp2
          have hP : p2.1.fake_no_tag_built = false ∧
              (!p2.1.no_tag_built) = (!p1.1.no_tag_built || (impl tag).isSome) ∧
              ∀ t : List BEvent,
                spacersMatch (!p1.1.no_tag_built) (p2.2 ++ t) =
                  spacersMatch (!p1.1.no_tag_built || (impl tag).isSome) t := by
            rw [hp2]
            exact processTag_flags impl s p1.1 tag hL.2.1
          obtain ⟨hI1, hI2⟩ := ih p2.1 rest hP.1
          constructor
          · rw [List.append_assoc, hL.2.2, ← hL.1, hP.2.2, ← hP.2.1]
            exact hI1
          · exact hI2
        · rw [if_neg hc]
          obtain ⟨hI1, hI2⟩ := ih p1.1 rest hL.2.1
          constructor
          · rw [List.append_assoc, hL.2.2, List.nil_append, ← hL.1]
            exact hI1
          · exact hI2

/-- C1 amended: the no-tag-built state is cleared only by a successful tag
build — emitting literal text never clears it, because `fake_no_tag_built`
starts false and is only ever reassigned false.  Consequently, in every
render trace a tag span has a spacer inserted before its invocation if and
only if some earlier tag in the same render built successfully, and the
fake flag is still false at the end. -/
theorem C1_amended_spacer_iff_prior_build (impl : List Char → Option (List Char))
    (s : Nat) (st : RSt) (v : List Char) (hf : st.fake_no_tag_built = false) :
    spacersMatch (!st.no_tag_built) (render impl s st v).2 = true ∧
    (render impl s st v).1.fake_no_tag_built = false :=
  spacers_inv impl s v.length st v hf

/-- Witness for the amended C1 at the counterexample's input. -/
theorem C1_amended_witness :
    rInit.fake_no_tag_built = false ∧
    spacersMatch (!rInit.no_tag_built) (render implAX 1 rInit (String.toList "a<x>")).2 = true ∧
    (render implAX 1 rInit (String.toList "a<x>")).1.fake_no_tag_built = false :=
  ⟨rfl,
   (C1_amended_spacer_iff_prior_build implAX 1 rInit (String.toList "a<x>") rfl).1,
   (C1_amended_spacer_iff_prior_build implAX 1 rInit (String.toList "a<x>") rfl).2⟩

/-- An unmatched `<` forces a `<` to occur somewhere in the value. -/
theorem hU_mem {v : List Char} (h : hasUnmatchedLt v = true) : '<' ∈ v := by
  unfold hasUnmatchedLt at h
  rw [List.any_eq_true] at h
  obtain ⟨c, hc, hcc⟩ := h
  have h2 : c ∈ v.reverse := mem_of_mem_takeWhile hc
  rw [List.mem_reverse] at h2
  simpa using (by simpa using hcc : c = '<') ▸ h2

/-- Consuming everything through a `>` preserves the unmatched-`<`
property: the segment after the last `>` is unchanged. -/
theorem hU_append_gt (xs ys : List Char) :
    hasUnmatchedLt (xs ++ '>' :: ys) = hasUnmatchedLt ys := by
  unfold hasUnmatchedLt
  rw [List.reverse_append, List.reverse_cons, List.append_assoc, List.singleton_append,
    takeWhile_append_stop _ _ _ (by simp)]

/-- When the current remainder has a `<` but no `>` after it, the loop
appends the whole remainder verbatim and stops. -/
theorem renderStep_stop_case (impl : List Char → Option (List Char)) (s : Nat)
    (recur : RSt → List Char → RSt × List BEvent) (st : RSt) (v : List Char)
    (c1 : Char) (tl : List Char)
    (hd : v.dropWhile (fun c => c ≠ '<') = c1 :: tl)
    (hd2 : tl.dropWhile (fun c => c ≠ '>') = []) (hv : v ≠ []) :
    renderStep impl s recur st v =
      (⟨st.out ++ v, st.no_tag_built, st.fake_no_tag_built⟩, [BEvent.append v]) := by
  unfold renderStep
  simp only [hd, hd2, if_neg hv]

/-- When the current remainder has a complete tag span, one loop iteration
is some prefix of events followed by the continuation on the rest. -/
theorem renderStep_tag_case (impl : List Char → Option (List Char)) (s : Nat)
    (recur : RSt → List Char → RSt × List BEvent) (st : RSt) (v : List Char)
    (c1 : Char) (tl : List Char) (c2 : Char) (rest : List Char)
    (hd : v.dropWhile (fun c => c ≠ '<') = c1 :: tl)
    (hd2 : tl.dropWhile (fun c => c ≠ '>') = c2 :: rest) :
    ∃ (stMid : RSt) (evs0 : List BEvent),
      renderStep impl s recur st v =
        ((recur stMid rest).1, evs0 ++ (recur stMid rest).2) := by
  unfold renderStep
  simp only [hd, hd2]
  exact ⟨_, _, rfl⟩

/-- Fuel-level form of C10. -/
theorem C10_aux (impl : List Char → Option (List Char)) (s : Nat) :
    ∀ (f : Nat) (st : RSt) (v : List Char), v.length ≤ f → hasUnmatchedLt v = true →
      ∃ (c w : List Char) (st2 : RSt) (evs : List BEvent),
        v = c ++ w ∧ w ≠ [] ∧ hasUnmatchedLt w = true ∧
        (∃ c1 tl, w.dropWhile (fun ch => ch ≠ '<') = c1 :: tl ∧
          tl.dropWhile (fun ch => ch ≠ '>') = []) ∧
        renderFuel impl s f st v =
          (⟨st2.out ++ w, st2.no_tag_built, st2.fake_no_tag_built⟩,
            evs ++ [BEvent.append w]) := by
  intro f
  induction f with
  | zero =>
    intro st v hlen hU
    have hv : v = [] := List.length_eq_zero.mp (Nat.le_zero.mp hlen)
    subst hv
    simp [hasUnmatchedLt] at hU
  | succ f ih =>
    intro st v hlen hU
    rcases hd : v.dropWhile (fun c => c ≠ '<') with _ | ⟨c1, tl⟩
    · exfalso
      rw [List.dropWhile_eq_nil_iff] at hd
      have := hd '<' (hU_mem hU)
      simp at this
    · rcases hd2 : tl.dropWhile (fun c => c ≠ '>') with _ | ⟨c2, rest⟩
      · have hv : v ≠ [] := by
          intro h
          subst h
          simp at hd
        refine ⟨[], v, st, [], by simp, hv, hU, ⟨c1, tl, hd, hd2⟩, ?_⟩
        show renderStep impl s (renderFuel impl s f) st v = _
        rw [renderStep_stop_case impl s _ st v c1 tl hd hd2 hv]
        simp
      · have hvsplit : v.takeWhile (fun c => c ≠ '<') ++ (c1 :: tl) = v := by
          rw [← hd]
          exact List.takeWhile_append_dropWhile _ _
        have htlsplit : tl.takeWhile (fun c => c ≠ '>') ++ (c2 :: rest) = tl := by
          rw [← hd2]
          exact List.takeWhile_append_dropWhile _ _
        have hc2 : c2 = '>' := by
          have := dropWhile_head_false hd2
          simpa using this
        subst hc2
        have hvform : v = (v.takeWhile (fun c => c ≠ '<')
            ++ c1 :: tl.takeWhile (fun c => c ≠ '>')) ++ '>' :: rest := by
          conv_lhs => rw [← hvsplit, ← htlsplit]
          simp
        have hUr : hasUnmatchedLt rest = true := by
          rw [hvform, hU_append_gt] at hU
          exact hU
        have hrestlen : rest.length ≤ f := by
          have h1 := congrArg List.length hvform
          simp only [List.length_append, List.length_cons] at h1
          omega
        obtain ⟨stMid, evs0, hstep⟩ :=
          renderStep_tag_case impl s (renderFuel impl s f) st v c1 tl '>' rest hd hd2
        obtain ⟨c', w, st2, evs, hsplit, hw, hUw, hstop, heq⟩ := ih stMid rest hrestlen hUr
        refine ⟨(v.takeWhile (fun c => c ≠ '<') ++ c1 :: tl.takeWhile (fun c => c ≠ '>'))
            ++ '>' :: c', w, st2, evs0 ++ evs, ?_, hw, hUw, hstop, ?_⟩
        · conv_lhs => rw [hvform]
          rw [hsplit]
          simp
        · show renderStep impl s (renderFuel impl s f) st v = _
          rw [hstep, heq]
          simp

/-- C10: whenever the format value contains a `<` with no `>` at or after
it, the scan loop terminates by appending the whole remaining value — a
non-empty suffix `w` of the value whose first `<` has no following `>`
(so it contains the unmatched `<` and everything after it) — verbatim to
the output as one final `append` event. -/
theorem C10_unmatched_lt_remainder (impl : List Char → Option (List Char)) (s : Nat)
    (st : RSt) (v : List Char) (hU : hasUnmatchedLt v = true) :
    ∃ (c w : List Char) (st2 : RSt) (evs : List BEvent),
      v = c ++ w ∧ w ≠ [] ∧ hasUnmatchedLt w = true ∧
      (∃ c1 tl, w.dropWhile (fun ch => ch ≠ '<') = c1 :: tl ∧
        tl.dropWhile (fun ch => ch ≠ '>') = []) ∧
      render impl s st v =
        (⟨st2.out ++ w, st2.no_tag_built, st2.fake_no_tag_built⟩,
          evs ++ [BEvent.append w]) :=
  C10_aux impl s v.length st v (Nat.le_refl _) hU

/-- Witness for C10 at the concrete value `"x<y"` (one matched-less `<`
after a literal). -/
theorem C10_witness :
    hasUnmatchedLt (String.toList "x<y") = true ∧
    (∃ (c w : List Char) (st2 : RSt) (evs : List BEvent),
      String.toList "x<y" = c ++ w ∧ w ≠ [] ∧ hasUnmatchedLt w = true ∧
      (∃ c1 tl, w.dropWhile (fun ch => ch ≠ '<') = c1 :: tl ∧
        tl.dropWhile (fun ch => ch ≠ '>') = []) ∧
      render implNone 1 rInit (String.toList "x<y") =
        (⟨st2.out ++ w, st2.no_tag_built, st2.fake_no_tag_built⟩,
          evs ++ [BEvent.append w])) :=
  ⟨by decide, C10_unmatched_lt_remainder implNone 1 rInit (String.toList "x<y") (by decide)⟩
